import Mathlib

/-!
Verification of the micro-market-pulse streaming statistics engine
(`src/micro-market-pulse/server/index.js`), shallowly embedded in Lean.

Timestamps are modelled as integers (milliseconds), values as rationals,
and z-scores as reals (the source uses IEEE doubles; the claims under
check concern exact zero/non-zero outcomes and rational identities that
are unaffected by rounding).
-/

set_option autoImplicit false

namespace MicroMarketPulse

/-- A timestamped sample `{ t, v }` as stored in `priceStore` / `infoStore`. -/
structure Sample where
  t : ℤ
  v : ℚ
deriving DecidableEq, Repr

/-- The constant `WINDOW_MS = 120_000` (index.js line 19). -/
def WINDOW_MS : ℤ := 120000

/-- The constant `IMPACT_WINDOW_MS = 60_000` (index.js line 36). -/
def IMPACT_WINDOW_MS : ℤ := 60000

/-- The constant `SENT_SPIKE_Z = 1.2` (index.js line 37). -/
def SENT_SPIKE_Z : ℚ := 6 / 5

/-- The constant `MIN_SEP_MS = 15_000` (index.js line 38), the per-symbol debounce. -/
def MIN_SEP_MS : ℤ := 15000

/-- The helper `prune(arr)` (index.js lines 44-47): repeatedly `shift`s the front element
while its timestamp is older than `now - WINDOW_MS`; this drops exactly the
longest such prefix, i.e. `dropWhile`. -/
def prune (now : ℤ) (arr : List Sample) : List Sample :=
  arr.dropWhile (fun s => decide (s.t < now - WINDOW_MS))

/-- The mean `vals.reduce((a,b)=>a+b,0) / vals.length` (index.js line 62). -/
def meanOf (vals : List ℚ) : ℚ :=
  vals.sum / (vals.length : ℚ)

/-- The variance `vals.reduce((a,b)=>a+(b-mean)**2,0) / Math.max(1, vals.length-1)`
(index.js line 63): Bessel-corrected sample variance with denominator
floored at 1. -/
def varsumOf (vals : List ℚ) : ℚ :=
  (vals.map (fun b => (b - meanOf vals) ^ 2)).sum / ((max 1 (vals.length - 1) : ℕ) : ℚ)

/-- The deviation `sd = Math.sqrt(varsum) || 1` (index.js line 64): the square root,
with the JS falsy-guard replacing a zero square root by 1. -/
noncomputable def sdOf (varsum : ℚ) : ℝ :=
  if Real.sqrt (varsum : ℝ) = 0 then 1 else Real.sqrt (varsum : ℝ)

/-- Return value of `zScore` (index.js lines 58-66): `{ z, latest }`. -/
structure ZOut where
  z : ℝ
  latest : Option ℚ

/-- The function `zScore(series)` (index.js lines 58-66): below 5 samples return
`{ z: 0, latest: null }`; otherwise z-score the last value against the
mean and (floored) standard deviation of all values. -/
noncomputable def zScore (series : List Sample) : ZOut :=
  if series.length < 5 then { z := 0, latest := none }
  else
    { z := (((series.map (fun d => d.v)).getLast?.getD 0 : ℚ) -
             (meanOf (series.map (fun d => d.v)) : ℚ)) /
           sdOf (varsumOf (series.map (fun d => d.v)))
      latest := (series.map (fun d => d.v)).getLast? }

/-- The differences `ps.slice(1).map((d, i) => ({ t: d.t, v: d.v - ps[i].v }))` guarded by
`ps.length >= 2` (index.js lines 91-94): consecutive first differences,
keeping the later sample's timestamp. -/
def firstDiffs (ps : List Sample) : List Sample :=
  if 2 ≤ ps.length then
    List.zipWith (fun d p => { t := d.t, v := d.v - p.v }) (ps.drop 1) ps
  else []

/-- The pipeline `const { z: zPrice = 0 } = priceDiffs.length ? zScore(priceDiffs) : { z: 0 }`
(index.js lines 96-97): the price/sentiment first-difference z-score pipeline
applied to a source series. -/
noncomputable def firstDifferenceZScore (xs : List Sample) : ℝ :=
  if (firstDiffs xs).length ≠ 0 then (zScore (firstDiffs xs)).z else 0

/-! ### Basic lemmas about the statistics pipeline -/

/-- The `ps.length >= 2` guard in the source is redundant: `zipWith` already
yields `[]` on shorter inputs, so `firstDiffs` is the unguarded `zipWith`. -/
theorem firstDiffs_eq (ps : List Sample) :
    firstDiffs ps =
      List.zipWith (fun d p => { t := d.t, v := d.v - p.v }) (ps.drop 1) ps := by
  cases ps with
  | nil => rfl
  | cons a l =>
    cases l with
    | nil => rfl
    | cons b l' => simp [firstDiffs]

theorem length_firstDiffs (ps : List Sample) :
    (firstDiffs ps).length = ps.length - 1 := by
  rw [firstDiffs_eq, List.length_zipWith, List.length_drop]
  omega

theorem firstDiffs_cons_cons (a b : Sample) (l : List Sample) :
    firstDiffs (a :: b :: l) = ⟨b.t, b.v - a.v⟩ :: firstDiffs (b :: l) := by
  rw [firstDiffs_eq, firstDiffs_eq]
  rfl

theorem zScore_z_of_short (series : List Sample) (h : series.length < 5) :
    (zScore series).z = 0 := by
  rw [zScore, if_pos h]

/-- All first differences of a constant-valued series are zero. -/
theorem firstDiffs_const (c : ℚ) : ∀ (ps : List Sample), (∀ s ∈ ps, s.v = c) →
    ∀ d ∈ firstDiffs ps, d.v = 0
  | [], _, d, hd => by simp [firstDiffs] at hd
  | [_], _, d, hd => by simp [firstDiffs] at hd
  | a :: b :: l, h, d, hd => by
    rw [firstDiffs_cons_cons] at hd
    rcases List.mem_cons.mp hd with h1 | h2
    · subst h1
      have ha := h a (by simp)
      have hb := h b (by simp)
      simp [ha, hb]
    · exact firstDiffs_const c (b :: l) (fun s hs => h s (List.mem_cons_of_mem _ hs)) d h2

theorem meanOf_zeros (vals : List ℚ) (h : ∀ x ∈ vals, x = 0) : meanOf vals = 0 := by
  rw [meanOf, List.sum_eq_zero h, zero_div]

theorem varsumOf_zeros (vals : List ℚ) (h : ∀ x ∈ vals, x = 0) : varsumOf vals = 0 := by
  rw [varsumOf, List.sum_eq_zero, zero_div]
  intro x hx
  rcases List.mem_map.mp hx with ⟨b, hb, rfl⟩
  rw [h b hb, meanOf_zeros vals h]
  norm_num

theorem sdOf_zero : sdOf 0 = 1 := by
  rw [sdOf]
  simp

/-- A z-score over a series whose values are all zero is zero. -/
theorem zScore_z_of_zero_vals (series : List Sample) (h : ∀ s ∈ series, s.v = 0) :
    (zScore series).z = 0 := by
  by_cases hlen : series.length < 5
  · exact zScore_z_of_short series hlen
  · rw [zScore, if_neg hlen]
    dsimp only
    have hv : ∀ x ∈ series.map (fun d => d.v), x = 0 := by
      intro x hx
      rcases List.mem_map.mp hx with ⟨s, hs, rfl⟩
      exact h s hs
    have hlat : (series.map (fun d => d.v)).getLast?.getD 0 = 0 := by
      cases hg : (series.map (fun d => d.v)).getLast? with
      | none => rfl
      | some x =>
        rcases List.mem_getLast?_eq_getLast (l := series.map (fun d => d.v)) (x := x)
          (by rw [hg]; rfl) with ⟨hne, hx⟩
        have := hv x (hx ▸ List.getLast_mem hne)
        simp [this]
    rw [hlat, meanOf_zeros _ hv]
    norm_num

/-! ### C1: the five-sample scenario -/

/-- The spec scenario: prices `[100,100,100,100,101]` ingested one per second. -/
def c1Five : List Sample :=
  [⟨0, 100⟩, ⟨1000, 100⟩, ⟨2000, 100⟩, ⟨3000, 100⟩, ⟨4000, 101⟩]

/-- Six samples `[100,100,100,100,100,101]`: the least count at which the
difference z-score becomes non-trivial. -/
def c1Six : List Sample :=
  [⟨0, 100⟩, ⟨1000, 100⟩, ⟨2000, 100⟩, ⟨3000, 100⟩, ⟨4000, 100⟩, ⟨5000, 101⟩]

/-- C1 (counterexample): on the spec's own five-sample scenario
`[100,100,100,100,101]` the price first-difference z-score is exactly `0`,
not finite-and-non-zero: the five samples give only four differences, and
`zScore` requires at least five elements in the array it is handed (the
differences), not in the source series. -/
theorem c1_counterexample : firstDifferenceZScore c1Five = 0 := by
  have h : firstDiffs c1Five = [⟨1000, 0⟩, ⟨2000, 0⟩, ⟨3000, 0⟩, ⟨4000, 1⟩] := by
    simp [firstDiffs, c1Five]
    norm_num
  simp [firstDifferenceZScore, h, zScore]

/-- C1 (amended): six source samples (five differences) are the true minimum;
for `[100,100,100,100,100,101]` the price first-difference z-score is the
finite non-zero value `4·√5/5 ≈ 1.79`, reflecting the single `+1` step as an
outlier relative to the five `0`-steps. -/
theorem c1_amended :
    firstDifferenceZScore c1Six = 4 * Real.sqrt 5 / 5 ∧
      firstDifferenceZScore c1Six ≠ 0 := by
  have h : firstDiffs c1Six =
      [⟨1000, 0⟩, ⟨2000, 0⟩, ⟨3000, 0⟩, ⟨4000, 0⟩, ⟨5000, 1⟩] := by
    simp [firstDiffs, c1Six]
    norm_num
  have hmap : (firstDiffs c1Six).map (fun d => d.v) = [0, 0, 0, 0, 1] := by
    rw [h]
    rfl
  have hvar : varsumOf [0, 0, 0, 0, 1] = 1 / 5 := by norm_num [varsumOf, meanOf]
  have hmean : meanOf [0, 0, 0, 0, 1] = 1 / 5 := by norm_num [meanOf]
  have hsqrt : Real.sqrt (((1 / 5 : ℚ)) : ℝ) = (Real.sqrt 5)⁻¹ := by
    rw [show (((1 / 5 : ℚ)) : ℝ) = (5 : ℝ)⁻¹ by norm_num, Real.sqrt_inv]
  have hsd : sdOf (varsumOf [0, 0, 0, 0, 1]) = (Real.sqrt 5)⁻¹ := by
    rw [hvar, sdOf, hsqrt, if_neg (by positivity)]
  have hval : firstDifferenceZScore c1Six = 4 * Real.sqrt 5 / 5 := by
    rw [firstDifferenceZScore, if_pos (by rw [h]; simp), zScore,
      if_neg (by rw [h]; simp), hmap]
    rw [hsd, hmean]
    rw [show ([0, 0, 0, 0, 1] : List ℚ).getLast?.getD 0 = 1 by rfl]
    dsimp only
    rw [div_eq_mul_inv, inv_inv]
    push_cast
    ring
  refine ⟨hval, ?_⟩
  rw [hval]
  positivity

/-! ### C2: short series give z = 0 -/

/-- C2: for every source series with fewer than 5 samples the
first-difference z-score pipeline returns exactly `0` (a total function in
this embedding: no error path exists). -/
theorem c2_short_series_zero (ps : List Sample) (h : ps.length < 5) :
    firstDifferenceZScore ps = 0 := by
  by_cases hd : (firstDiffs ps).length ≠ 0
  · rw [firstDifferenceZScore, if_pos hd, zScore_z_of_short]
    rw [length_firstDiffs]
    omega
  · rw [firstDifferenceZScore, if_neg hd]

/-- Witness for C2 at the two-sample series `[(0,1),(1000,2)]`. -/
theorem c2_short_series_zero_witness :
    ([⟨0, 1⟩, ⟨1000, 2⟩] : List Sample).length < 5 ∧
      firstDifferenceZScore [⟨0, 1⟩, ⟨1000, 2⟩] = 0 :=
  ⟨by norm_num, c2_short_series_zero _ (by norm_num)⟩

/-! ### C3: constant series give z = 0 with sd floored to 1 -/

/-- C3: for every constant-valued series the first-difference z-score is
exactly `0` (no NaN/Inf is possible in this real-valued embedding), and the
standard deviation actually used in the division is the floored value `1`,
since the zero variance of the differences makes `Math.sqrt(varsum)` falsy. -/
theorem c3_const_series (ps : List Sample) (c : ℚ) (h : ∀ s ∈ ps, s.v = c) :
    firstDifferenceZScore ps = 0 ∧
      sdOf (varsumOf ((firstDiffs ps).map (fun d => d.v))) = 1 := by
  have hz : ∀ x ∈ (firstDiffs ps).map (fun d => d.v), x = 0 := by
    intro x hx
    rcases List.mem_map.mp hx with ⟨d, hd, rfl⟩
    exact firstDiffs_const c ps h d hd
  constructor
  · by_cases hd : (firstDiffs ps).length ≠ 0
    · rw [firstDifferenceZScore, if_pos hd]
      exact zScore_z_of_zero_vals _ (fun d hd2 => firstDiffs_const c ps h d hd2)
    · rw [firstDifferenceZScore, if_neg hd]
  · rw [varsumOf_zeros _ hz, sdOf_zero]

/-- Witness for C3 at a seven-sample constant series of value `5`
(long enough that the z-score guard is not what forces the zero). -/
theorem c3_const_series_witness :
    (∀ s ∈ ([⟨0, 5⟩, ⟨1000, 5⟩, ⟨2000, 5⟩, ⟨3000, 5⟩, ⟨4000, 5⟩, ⟨5000, 5⟩,
        ⟨6000, 5⟩] : List Sample), s.v = 5) ∧
      firstDifferenceZScore [⟨0, 5⟩, ⟨1000, 5⟩, ⟨2000, 5⟩, ⟨3000, 5⟩, ⟨4000, 5⟩,
        ⟨5000, 5⟩, ⟨6000, 5⟩] = 0 :=
  ⟨by intro s hs; fin_cases hs <;> rfl,
   (c3_const_series _ 5 (by intro s hs; fin_cases hs <;> rfl)).1⟩

/-! ### C4: eviction invariant of `prune` -/

/-- C4 (counterexample): `prune` only ever drops a prefix, so for an
out-of-order series the eviction invariant fails: in
`[(t=200000), (t=0)]` at `now = 200000` the in-window head stops the loop
and the expired sample `t = 0 < now - WINDOW_MS` survives. -/
theorem c4_counterexample :
    (⟨0, 1⟩ : Sample) ∈ prune 200000 [⟨200000, 1⟩, ⟨0, 1⟩] ∧
      ¬(200000 - WINDOW_MS ≤ (⟨0, 1⟩ : Sample).t) := by
  constructor
  · simp [prune, WINDOW_MS, List.dropWhile_cons]
  · norm_num [WINDOW_MS]

/-- C4 (amended): for series whose timestamps arrive in non-decreasing
order — the normal append order of the engine — every sample remaining
after `prune(now)` satisfies `t ≥ now − WINDOW_MS`. -/
theorem c4_amended (now : ℤ) (arr : List Sample)
    (h : arr.Pairwise (fun a b => a.t ≤ b.t)) :
    ∀ s ∈ prune now arr, now - WINDOW_MS ≤ s.t := by
  induction arr with
  | nil =>
    intro s hs
    simp [prune] at hs
  | cons a l ih =>
    rw [List.pairwise_cons] at h
    intro s hs
    rw [prune, List.dropWhile_cons] at hs
    by_cases hc : a.t < now - WINDOW_MS
    · rw [if_pos (decide_eq_true hc)] at hs
      exact ih h.2 s hs
    · rw [if_neg (by simpa using hc)] at hs
      rcases List.mem_cons.mp hs with rfl | hmem
      · omega
      · have := h.1 s hmem
        omega

/-- Witness for C4 (amended) on the sorted series
`[(t=100000), (t=130000)]` at `now = 200000`. -/
theorem c4_amended_witness :
    List.Pairwise (fun a b => a.t ≤ b.t)
        ([⟨100000, 1⟩, ⟨130000, 2⟩] : List Sample) ∧
      ∀ s ∈ prune 200000 [⟨100000, 1⟩, ⟨130000, 2⟩], 200000 - WINDOW_MS ≤ s.t :=
  ⟨by decide, c4_amended 200000 _ (by decide)⟩

/-! ### C7: resolution of a pending spike -/

/-- The "current last price" read `ps.at(-1)?.v`. -/
def lastPriceOf (ps : List Sample) : Option ℚ :=
  ps.getLast?.map (fun s => s.v)

/-- The resolution action (index.js lines 156-157):
`const p1 = priceStore[sym].at(-1)?.v || p0; const retPct = ((p1 - p0) / p0) * 100`.
The JS `||` falls back to the reference price both on an empty store and on a
zero last price. -/
def resolveRet (ps : List Sample) (p0 : ℚ) : ℚ :=
  let p1 := match lastPriceOf ps with
    | some v => if v = 0 then p0 else v
    | none => p0
  (p1 - p0) / p0 * 100

/-- C7: at resolution time the realized return is
`(currentPrice − referencePrice) / referencePrice × 100` where `currentPrice`
is the store's last price; with an empty store, or a last price still equal
to the reference (no newer price since detection), the result is exactly 0. -/
theorem c7_resolution (ps : List Sample) (p0 : ℚ) (hp0 : p0 ≠ 0) :
    (∀ s ∈ ps.getLast?, s.v ≠ 0 → resolveRet ps p0 = (s.v - p0) / p0 * 100) ∧
      (ps.getLast? = none → resolveRet ps p0 = 0) ∧
      (∀ s ∈ ps.getLast?, s.v = p0 → resolveRet ps p0 = 0) := by
  refine ⟨?_, ?_, ?_⟩
  · intro s hs hv
    rcases Option.mem_def.mp hs with hlast
    rw [resolveRet, lastPriceOf, hlast]
    simp [hv]
  · intro hlast
    rw [resolveRet, lastPriceOf, hlast]
    simp
  · intro s hs hv
    rcases Option.mem_def.mp hs with hlast
    have hv0 : s.v ≠ 0 := by rw [hv]; exact hp0
    rw [resolveRet, lastPriceOf, hlast]
    simp [hv0, hv]

/-- Witness for C7: reference price `100`, last price `103` at resolution
time, yielding exactly `3` percent. -/
theorem c7_resolution_witness : resolveRet [⟨0, 103⟩] 100 = 3 := by
  have h := (c7_resolution [⟨0, 103⟩] 100 (by norm_num)).1 ⟨0, 103⟩ rfl (by norm_num)
  rw [h]
  norm_num

/-! ### C8: bounded impact log -/

/-- An impact record as pushed at resolution time (index.js lines 180-188;
the optional energy block is orthogonal to the log's container behaviour). -/
structure Impact where
  sym : String
  t : ℤ
  zSentAtSpike : ℚ
  retPct60s : ℚ

/-- The append `impacts.push(rec); if (impacts.length > 100) impacts.shift();`
(index.js lines 180-189): append, then evict the single oldest record when
the capacity of 100 is exceeded. -/
def pushImpact (log : List Impact) (x : Impact) : List Impact :=
  let l := log ++ [x]
  if 100 < l.length then l.drop 1 else l

/-- One `pushImpact` keeps exactly the newest `100` of `log ++ [x]`. -/
theorem pushImpact_eq (log : List Impact) (x : Impact) (h : log.length ≤ 100) :
    pushImpact log x = (log ++ [x]).drop ((log ++ [x]).length - 100) := by
  have hlen : (log ++ [x]).length = log.length + 1 := by simp
  rw [pushImpact]
  by_cases hc : 100 < (log ++ [x]).length
  · rw [if_pos hc]
    congr 1
    omega
  · rw [if_neg hc, show (log ++ [x]).length - 100 = 0 by omega, List.drop_zero]

theorem foldl_pushImpact (xs : List Impact) :
    ∀ (log : List Impact), log.length ≤ 100 →
      List.foldl pushImpact log xs = (log ++ xs).drop ((log ++ xs).length - 100) := by
  induction xs with
  | nil =>
    intro log h
    rw [List.foldl_nil, List.append_nil, show log.length - 100 = 0 by omega,
      List.drop_zero]
  | cons x xs ih =>
    intro log h
    have hA : (log ++ [x]).length = log.length + 1 := by simp
    have hform := pushImpact_eq log x h
    have hlen : (pushImpact log x).length ≤ 100 := by
      rw [hform, List.length_drop]
      omega
    rw [List.foldl_cons, ih _ hlen, hform]
    have hk : (log ++ [x]).length - 100 ≤ (log ++ [x]).length := Nat.sub_le _ _
    rw [← List.drop_append_of_le_length hk, List.drop_drop]
    have h4 : (log ++ [x]) ++ xs = log ++ x :: xs := by simp
    rw [h4, List.length_drop]
    have h5 : (log ++ x :: xs).length = log.length + 1 + xs.length := by
      rw [List.length_append, List.length_cons]
      omega
    have h6 : (log ++ [x]).length - 100 +
        ((log ++ x :: xs).length - ((log ++ [x]).length - 100) - 100) =
          (log ++ x :: xs).length - 100 := by
      omega
    rw [h6]

/-- C8: the impact log is bounded at capacity 100 with oldest-first eviction:
starting empty, after any sequence of appends it holds exactly the most
recent `min(k, 100)` records, in append order. -/
theorem c8_impact_log_bounded (xs : List Impact) :
    List.foldl pushImpact [] xs = xs.drop (xs.length - 100) ∧
      (List.foldl pushImpact [] xs).length = min xs.length 100 := by
  have h := foldl_pushImpact xs [] (by simp)
  rw [List.nil_append] at h
  refine ⟨h, ?_⟩
  rw [h, List.length_drop]
  omega

/-! ### C9: capacity-triggered bulk eviction -/

/-- The high-water-mark eviction on append (index.js lines 211-212, 480-481):
`priceStore[sym].push({t, v}); if (priceStore[sym].length > 2000)
priceStore[sym].splice(0, 500);` — `splice(0, 500)` removes the first
(oldest) 500 elements. -/
def appendPrice (arr : List Sample) (s : Sample) : List Sample :=
  let a := arr ++ [s]
  if 2000 < a.length then a.drop 500 else a

/-- A full series at the high-water mark of 2000 samples. -/
def c9Series : List Sample := (List.range 2000).map (fun (i : ℕ) => ⟨(i : ℤ), 1⟩)

theorem c9Series_length : c9Series.length = 2000 := by
  rw [c9Series, List.length_map, List.length_range]

/-- C9 (counterexample): appending to a series of 2000 samples triggers the
bulk eviction, which keeps 1501 of the 2001 samples: it evicts 500 — a
quarter of the high-water mark — not "the oldest half" (which would evict
1000 of the 2001). -/
theorem c9_counterexample :
    (appendPrice c9Series ⟨2000, 1⟩).length = 1501 ∧
      (c9Series ++ [(⟨2000, 1⟩ : Sample)]).length -
        (appendPrice c9Series ⟨2000, 1⟩).length = 500 ∧
      500 ≠ (c9Series ++ [(⟨2000, 1⟩ : Sample)]).length / 2 := by
  have hlen : c9Series.length = 2000 := c9Series_length
  have h : (c9Series ++ [(⟨2000, 1⟩ : Sample)]).length = 2001 := by
    rw [List.length_append, hlen]
    rfl
  have happ : (appendPrice c9Series ⟨2000, 1⟩).length = 1501 := by
    rw [appendPrice, if_pos (by omega), List.length_drop, h]
  exact ⟨happ, by omega, by omega⟩

/-- C9 (amended): when a series exceeds the 2000-sample high-water mark on
append, the bulk eviction drops exactly the oldest 500 samples — one quarter
of the mark, not half — keeping the remainder in order, and the series length
stays bounded by the mark. -/
theorem c9_amended (arr : List Sample) (s : Sample) (h : arr.length ≤ 2000) :
    (appendPrice arr s).length ≤ 2000 ∧
      (arr.length = 2000 →
        appendPrice arr s = (arr ++ [s]).drop 500 ∧
          (appendPrice arr s).length = arr.length + 1 - 500) := by
  have hA : (arr ++ [s]).length = arr.length + 1 := by simp
  constructor
  · rw [appendPrice]
    by_cases hc : 2000 < (arr ++ [s]).length
    · rw [if_pos hc, List.length_drop]
      omega
    · rw [if_neg hc]
      omega
  · intro h2000
    have hgt : 2000 < (arr ++ [s]).length := by omega
    refine ⟨by rw [appendPrice, if_pos hgt], ?_⟩
    rw [appendPrice, if_pos hgt, List.length_drop]
    omega

/-- Witness for C9 (amended) at the 2000-sample series. -/
theorem c9_amended_witness :
    c9Series.length ≤ 2000 ∧ (appendPrice c9Series ⟨2000, 1⟩).length ≤ 2000 :=
  ⟨by rw [c9Series_length], (c9_amended c9Series ⟨2000, 1⟩ (by rw [c9Series_length])).1⟩

/-! ### Impact detector state machine (C5, C6, C10)

`computeSignals` (index.js lines 146-195) runs every second per symbol:
when `|zSent| >= SENT_SPIKE_Z` and `now - lastSpikeAt[sym] >= MIN_SEP_MS`,
it sets `lastSpikeAt[sym] = now`, reads the reference price `p0`, and — only
when `p0` is truthy — schedules a `setTimeout` resolution `IMPACT_WINDOW_MS`
later. We model the detector for one symbol as a transition system whose
inputs (store contents, wall clock) are free, since the stores are filled by
external producers. -/

/-- The read `p0 = lastPrice || ps.at(-1)?.v || null` (index.js line 151):
both reads see the same last element, so the reference price is the last
price when it exists and is non-zero (truthy), `null` otherwise. -/
def refPrice (ps : List Sample) : Option ℚ :=
  match lastPriceOf ps with
  | some v => if v = 0 then none else some v
  | none => none

/-- The pending `setTimeout` entries created at detection time: one entry
`(detection time, reference price)` when the reference price is truthy,
none otherwise (index.js lines 151-193). -/
def pendingOfRef (now : ℤ) (r : Option ℚ) : List (ℤ × ℚ) :=
  match r with
  | some p => [(now, p)]
  | none => []

/-- Per-instrument impact-detector state: the wall clock, `lastSpikeAt[sym]`,
the outstanding `setTimeout` resolutions (detection time, reference price),
and — as a history variable — the chronological list of confirmed spike
detection times. -/
structure DetState where
  now : ℤ
  lastSpikeAt : ℤ
  pending : List (ℤ × ℚ)
  spikes : List ℤ

/-- Boot state: `lastSpikeAt = { BTC: 0, ETH: 0 }`, nothing outstanding. -/
def initState : DetState := { now := 0, lastSpikeAt := 0, pending := [], spikes := [] }

/-- One scheduler step of the detector:
* `tick` — a `computeSignals` pass at wall time `now` whose spike condition
  and debounce check both pass (index.js lines 146-149): `lastSpikeAt` is
  set to `now` first, and a resolution is scheduled only if the reference
  price is truthy (lines 151-154);
* `idle` — a pass where nothing fires (time advances);
* `resolve` — a matured `setTimeout` callback firing, no earlier than
  `IMPACT_WINDOW_MS` after its detection (index.js lines 155-192). -/
inductive Step : DetState → DetState → Prop where
  | tick : ∀ (st : DetState) (infos ps : List Sample) (now : ℤ),
      st.now ≤ now →
      |firstDifferenceZScore (prune now infos)| ≥ (SENT_SPIKE_Z : ℝ) →
      now - st.lastSpikeAt ≥ MIN_SEP_MS →
      Step st { now := now, lastSpikeAt := now,
                pending := st.pending ++ pendingOfRef now (refPrice (prune now ps)),
                spikes := st.spikes ++ [now] }
  | idle : ∀ (st : DetState) (now : ℤ), st.now ≤ now →
      Step st { st with now := now }
  | resolve : ∀ (st : DetState) (now : ℤ) (i : ℕ) (hi : i < st.pending.length),
      st.now ≤ now →
      (st.pending.get ⟨i, hi⟩).1 + IMPACT_WINDOW_MS ≤ now →
      Step st { st with now := now, pending := st.pending.eraseIdx i }

/-- States reachable from boot. -/
def Reachable (st : DetState) : Prop :=
  Relation.ReflTransGen Step initState st

theorem pendingOfRef_fst (now : ℤ) (r : Option ℚ) (p : ℤ × ℚ)
    (hp : p ∈ pendingOfRef now r) : p.1 = now := by
  cases r with
  | none => simp [pendingOfRef] at hp
  | some q =>
    simp only [pendingOfRef, List.mem_singleton] at hp
    rw [hp]

/-- Detector invariant: every outstanding resolution was stamped no later
than `lastSpikeAt`; outstanding detection times are pairwise at least
`MIN_SEP_MS` apart; confirmed detections form a chain with gaps at least
`MIN_SEP_MS`; and every confirmed detection precedes `lastSpikeAt`. -/
def DetInv (st : DetState) : Prop :=
  (∀ p ∈ st.pending, p.1 ≤ st.lastSpikeAt) ∧
  st.pending.Pairwise (fun a b => a.1 + MIN_SEP_MS ≤ b.1) ∧
  st.spikes.Chain' (fun a b => a + MIN_SEP_MS ≤ b) ∧
  (∀ s ∈ st.spikes, s ≤ st.lastSpikeAt)

theorem detInv_init : DetInv initState := by
  refine ⟨?_, ?_, ?_, ?_⟩ <;> simp [initState]

theorem detInv_step (st st' : DetState) (h : Step st st') (hInv : DetInv st) :
    DetInv st' := by
  obtain ⟨h1, h2, h3, h4⟩ := hInv
  have hm : MIN_SEP_MS = 15000 := rfl
  cases h with
  | tick infos ps now hnow hz hdb =>
    rw [hm] at hdb
    refine ⟨?_, ?_, ?_, ?_⟩
    · intro p hp
      rcases List.mem_append.mp hp with hl | hr
      · have := h1 p hl
        dsimp only
        omega
      · have := pendingOfRef_fst now _ p hr
        dsimp only
        omega
    · dsimp only
      rw [List.pairwise_append]
      refine ⟨h2, ?_, ?_⟩
      · cases refPrice (prune now ps) with
        | none => simp [pendingOfRef]
        | some q => simp [pendingOfRef]
      · intro a ha b hb
        have hbn := pendingOfRef_fst now _ b hb
        have han := h1 a ha
        rw [hbn, hm]
        omega
    · dsimp only
      rw [List.chain'_append]
      refine ⟨h3, List.chain'_singleton _, ?_⟩
      · intro x hx y hy
        rcases List.mem_getLast?_eq_getLast hx with ⟨hne, hxl⟩
        have hxs : x ∈ st.spikes := hxl ▸ List.getLast_mem hne
        have := h4 x hxs
        rw [List.head?_cons, Option.mem_some_iff] at hy
        rw [← hy, hm]
        omega
    · intro s hs
      rcases List.mem_append.mp hs with hl | hr
      · have := h4 s hl
        dsimp only
        omega
      · rw [List.mem_singleton] at hr
        dsimp only
        omega
  | idle now hnow =>
    exact ⟨h1, h2, h3, h4⟩
  | resolve now i hi hnow hmat =>
    refine ⟨?_, ?_, h3, h4⟩
    · intro p hp
      exact h1 p ((List.eraseIdx_sublist st.pending i).subset hp)
    · exact h2.sublist (List.eraseIdx_sublist st.pending i)

theorem detInv_reachable (st : DetState) (h : Reachable st) : DetInv st := by
  induction h with
  | refl => exact detInv_init
  | tail _ hstep ih => exact detInv_step _ _ hstep ih

/-! ### Concrete detection traces -/

/-- An info series whose last step is a strong outlier: nine zero scores then
a `1`, timestamps one second apart ending at `t = 15000`. Its nine first
differences are `[0,...,0,1]`, giving `zSent = 8/3 ≈ 2.67 ≥ 1.2`. -/
def infoA : List Sample :=
  [⟨6000, 0⟩, ⟨7000, 0⟩, ⟨8000, 0⟩, ⟨9000, 0⟩, ⟨10000, 0⟩, ⟨11000, 0⟩,
   ⟨12000, 0⟩, ⟨13000, 0⟩, ⟨14000, 0⟩, ⟨15000, 1⟩]

/-- The same shape of info series ending at `t = 30000`. -/
def infoB : List Sample :=
  [⟨21000, 0⟩, ⟨22000, 0⟩, ⟨23000, 0⟩, ⟨24000, 0⟩, ⟨25000, 0⟩, ⟨26000, 0⟩,
   ⟨27000, 0⟩, ⟨28000, 0⟩, ⟨29000, 0⟩, ⟨30000, 1⟩]

/-- Price stores holding a single non-zero last price at the tick times. -/
def psA : List Sample := [⟨15000, 100⟩]

def psB : List Sample := [⟨30000, 100⟩]

/-- The z-score of any series whose nine values are eight zeros then a one:
mean `1/9`, Bessel variance `1/9`, sd `1/3`, z `(1 - 1/9)/(1/3) = 8/3`. -/
theorem zScore_nine_zeros_one (series : List Sample)
    (h : series.map (fun d => d.v) = [0, 0, 0, 0, 0, 0, 0, 0, 1]) :
    (zScore series).z = 8 / 3 := by
  have hlen : series.length = 9 := by
    have := congrArg List.length h
    simpa using this
  rw [zScore, if_neg (by omega)]
  dsimp only
  rw [h]
  have hmean : meanOf [0, 0, 0, 0, 0, 0, 0, 0, 1] = 1 / 9 := by norm_num [meanOf]
  have hvar : varsumOf [0, 0, 0, 0, 0, 0, 0, 0, 1] = 1 / 9 := by
    norm_num [varsumOf, meanOf]
  have hsqrt : Real.sqrt (((1 / 9 : ℚ)) : ℝ) = 1 / 3 := by
    rw [show (((1 / 9 : ℚ)) : ℝ) = (1 / 3 : ℝ) ^ 2 by norm_num]
    exact Real.sqrt_sq (by norm_num)
  have hsd : sdOf (varsumOf [0, 0, 0, 0, 0, 0, 0, 0, 1]) = 1 / 3 := by
    rw [hvar, sdOf, hsqrt, if_neg (by norm_num)]
  rw [hsd, hmean, show ([0, 0, 0, 0, 0, 0, 0, 0, 1] : List ℚ).getLast?.getD 0 = 1 by rfl]
  push_cast
  norm_num

theorem diffs_infoA : (firstDiffs infoA).map (fun d => d.v) = [0, 0, 0, 0, 0, 0, 0, 0, 1] := by
  rw [show firstDiffs infoA =
    [⟨7000, 0⟩, ⟨8000, 0⟩, ⟨9000, 0⟩, ⟨10000, 0⟩, ⟨11000, 0⟩,
     ⟨12000, 0⟩, ⟨13000, 0⟩, ⟨14000, 0⟩, ⟨15000, 1⟩] by
      simp [firstDiffs, infoA]]
  rfl

theorem diffs_infoB : (firstDiffs infoB).map (fun d => d.v) = [0, 0, 0, 0, 0, 0, 0, 0, 1] := by
  rw [show firstDiffs infoB =
    [⟨22000, 0⟩, ⟨23000, 0⟩, ⟨24000, 0⟩, ⟨25000, 0⟩, ⟨26000, 0⟩,
     ⟨27000, 0⟩, ⟨28000, 0⟩, ⟨29000, 0⟩, ⟨30000, 1⟩] by
      simp [firstDiffs, infoB]]
  rfl

theorem zSent_infoA : firstDifferenceZScore infoA = 8 / 3 := by
  have hlen : (firstDiffs infoA).length = 9 := by
    have := congrArg List.length diffs_infoA
    simpa using this
  rw [firstDifferenceZScore, if_pos (by omega)]
  exact zScore_nine_zeros_one _ diffs_infoA

theorem zSent_infoB : firstDifferenceZScore infoB = 8 / 3 := by
  have hlen : (firstDiffs infoB).length = 9 := by
    have := congrArg List.length diffs_infoB
    simpa using this
  rw [firstDifferenceZScore, if_pos (by omega)]
  exact zScore_nine_zeros_one _ diffs_infoB

theorem prune_infoA : prune 15000 infoA = infoA := by
  rw [infoA, prune, List.dropWhile_cons]
  norm_num [WINDOW_MS]

theorem prune_infoB : prune 30000 infoB = infoB := by
  rw [infoB, prune, List.dropWhile_cons]
  norm_num [WINDOW_MS]

theorem prune_psA : prune 15000 psA = psA := by
  rw [psA, prune, List.dropWhile_cons]
  norm_num [WINDOW_MS]

theorem prune_psB : prune 30000 psB = psB := by
  rw [psB, prune, List.dropWhile_cons]
  norm_num [WINDOW_MS]

/-- The spike threshold is met at both concrete ticks. -/
theorem spike_cond_infoA :
    |firstDifferenceZScore (prune 15000 infoA)| ≥ (SENT_SPIKE_Z : ℝ) := by
  rw [prune_infoA, zSent_infoA]
  rw [show ((SENT_SPIKE_Z : ℚ) : ℝ) = 6 / 5 by norm_num [SENT_SPIKE_Z]]
  rw [abs_of_pos (by norm_num)]
  norm_num

theorem spike_cond_infoB :
    |firstDifferenceZScore (prune 30000 infoB)| ≥ (SENT_SPIKE_Z : ℝ) := by
  rw [prune_infoB, zSent_infoB]
  rw [show ((SENT_SPIKE_Z : ℚ) : ℝ) = 6 / 5 by norm_num [SENT_SPIKE_Z]]
  rw [abs_of_pos (by norm_num)]
  norm_num

/-- State after the first confirmed spike at `t = 15000`. -/
def stA : DetState :=
  { now := 15000, lastSpikeAt := 15000, pending := [(15000, 100)], spikes := [15000] }

/-- State after the second confirmed spike at `t = 30000`, while the first
resolution (due at `t = 75000`) is still outstanding. -/
def stB : DetState :=
  { now := 30000, lastSpikeAt := 30000, pending := [(15000, 100), (30000, 100)],
    spikes := [15000, 30000] }

theorem step_init_stA : Step initState stA :=
  Step.tick initState infoA psA 15000 (by norm_num [initState])
    spike_cond_infoA (by norm_num [initState, MIN_SEP_MS])

theorem step_stA_stB : Step stA stB :=
  Step.tick stA infoB psB 30000 (by norm_num [stA])
    spike_cond_infoB (by norm_num [stA, MIN_SEP_MS])

theorem reachable_stB : Reachable stB :=
  Relation.ReflTransGen.tail (Relation.ReflTransGen.single step_init_stA) step_stA_stB

/-! ### C5: at most one outstanding pending spike -/

/-- C5 (counterexample): it is not true that every reachable detector state
has at most one outstanding pending spike.  The debounce interval
(`MIN_SEP_MS = 15 s`) is shorter than the impact window (`60 s`), so a spike
confirmed at `t = 15000` and another at `t = 30000` leave two resolutions
outstanding simultaneously (the first not due before `t = 75000`). -/
theorem c5_counterexample :
    ¬ (∀ st : DetState, Reachable st → st.pending.length ≤ 1) := by
  intro hcl
  have h := hcl stB reachable_stB
  simp [stB] at h

/-- C5 (amended): several pending spikes may be outstanding for an
instrument at once; what the detection-time debounce does enforce is that
the detection times of the outstanding pending spikes are pairwise at least
`MIN_SEP_MS` apart. -/
theorem c5_amended (st : DetState) (h : Reachable st) :
    st.pending.Pairwise (fun a b => a.1 + MIN_SEP_MS ≤ b.1) :=
  (detInv_reachable st h).2.1

/-- Witness for C5 (amended) at the two-pending reachable state `stB`. -/
theorem c5_amended_witness :
    stB.pending.Pairwise (fun a b => a.1 + MIN_SEP_MS ≤ b.1) :=
  c5_amended stB reachable_stB

/-! ### C6: debounce between consecutive confirmed spikes -/

/-- C6: along every reachable execution, consecutive confirmed spikes of an
instrument are separated by at least `MIN_SEP_MS` (the code's debounce
interval): the history of detection times is a chain with gaps ≥ 15 s. -/
theorem c6_debounce (st : DetState) (h : Reachable st) :
    st.spikes.Chain' (fun a b => a + MIN_SEP_MS ≤ b) :=
  (detInv_reachable st h).2.2.1

/-- Witness for C6 at the reachable state `stB` with two confirmed spikes. -/
theorem c6_debounce_witness :
    stB.spikes.Chain' (fun a b => a + MIN_SEP_MS ≤ b) :=
  c6_debounce stB reachable_stB

/-! ### C10: spike confirmed against an empty/zero price store -/

/-- C10: when the spike condition and debounce pass but the reference price
is falsy (empty store or last price 0), the detector still advances
`lastSpikeAt` to `now` — before the reference price is examined — so no
resolution is scheduled (`pending` unchanged, hence no impact record can
ever arise from this spike), yet any tick less than `MIN_SEP_MS` later
fails the debounce for this instrument. -/
theorem c10_falsy_reference (st : DetState) (infos ps : List Sample) (now : ℤ)
    (h1 : st.now ≤ now)
    (h2 : |firstDifferenceZScore (prune now infos)| ≥ (SENT_SPIKE_Z : ℝ))
    (h3 : now - st.lastSpikeAt ≥ MIN_SEP_MS)
    (h4 : refPrice (prune now ps) = none) :
    ∃ st', Step st st' ∧ st'.lastSpikeAt = now ∧ st'.pending = st.pending ∧
      ∀ now2 : ℤ, now2 - now < MIN_SEP_MS → ¬ (now2 - st'.lastSpikeAt ≥ MIN_SEP_MS) := by
  refine ⟨_, Step.tick st infos ps now h1 h2 h3, rfl, ?_, ?_⟩
  · dsimp only
    rw [h4]
    simp [pendingOfRef]
  · intro now2 hlt
    dsimp only
    omega

/-- Witness for C10: at boot, a spike tick at `t = 15000` with the outlier
info series and an empty price store. -/
theorem c10_falsy_reference_witness :
    ∃ st', Step initState st' ∧ st'.lastSpikeAt = 15000 ∧
      st'.pending = initState.pending ∧
      ∀ now2 : ℤ, now2 - 15000 < MIN_SEP_MS → ¬ (now2 - st'.lastSpikeAt ≥ MIN_SEP_MS) :=
  c10_falsy_reference initState infoA [] 15000 (by norm_num [initState])
    spike_cond_infoA (by norm_num [initState, MIN_SEP_MS]) rfl

end MicroMarketPulse
